import Mathlib

/-!
Verification of the canvas-api HTTP client core: query-string serialization,
link-header pagination, the lazy generator combinators, and the process-wide
rate-limited request dispatcher.  Every definition is a shallow embedding of
the corresponding TypeScript source (src/canvasApi.ts, src/rateLimiter.ts,
src/extendedGenerator.ts); transport, URL resolution and JSON parsing are
external collaborators and appear as oracle parameters.
-/

/-! ## Percent encoding (JS encodeURIComponent) -/

/-- Characters left intact by JS `encodeURIComponent`:
ASCII alphanumerics and `- _ . ! ~ * ' ( )`. -/
def isUriUnreserved (c : Char) : Bool :=
  c.isAlpha || c.isDigit || c = '-' || c = '_' || c = '.' || c = '!' ||
  c = '~' || c = '*' || c.toNat = 39 || c = '(' || c = ')'

/-- Uppercase hexadecimal digit for a value below 16. -/
def hexDigitChar (n : Nat) : Char :=
  if n < 10 then Char.ofNat (48 + n) else Char.ofNat (55 + n)

/-- UTF-8 byte sequence of a single character. -/
def utf8Bytes (c : Char) : List Nat :=
  let n := c.toNat
  if n < 128 then [n]
  else if n < 2048 then [192 + n / 64, 128 + n % 64]
  else if n < 65536 then [224 + n / 4096, 128 + (n / 64) % 64, 128 + n % 64]
  else [240 + n / 262144, 128 + (n / 4096) % 64, 128 + (n / 64) % 64, 128 + n % 64]

/-- Percent-encode one byte as `%HH` with uppercase hex. -/
def percentByte (b : Nat) : String :=
  String.mk ['%', hexDigitChar (b / 16), hexDigitChar (b % 16)]

/-- One character of `encodeURIComponent` output. -/
def encodeUriChar (c : Char) : String :=
  if isUriUnreserved c then String.mk [c]
  else String.join ((utf8Bytes c).map percentByte)

/-- Shallow embedding of JS `encodeURIComponent`. -/
def encodeURIComponent (s : String) : String :=
  String.join (s.toList.map encodeUriChar)

/-! ## Query parameters (canvasApi.ts `stringifyQueryParameters`) -/

/-- A scalar query-parameter value (`string | number` in the source);
`String(v)` in JS is modelled by `QScalar.toStr`. -/
inductive QScalar where
  | str (s : String)
  | num (n : Int)
deriving DecidableEq, Repr

def QScalar.toStr : QScalar → String
  | .str s => s
  | .num n => toString n

/-- A query-parameter value: scalar or array (`string | number | (string|number)[]`). -/
inductive QValue where
  | scalar (v : QScalar)
  | arr (vs : List QScalar)
deriving DecidableEq, Repr

/-- Query parameters: `QueryParams = Record<string, ...>`, with JS `for..in` insertion order
made explicit as a list of key/value pairs. -/
abbrev QueryParams := List (String × QValue)

/-- The pair pushed for one array element: `key[]=value`, both encoded. -/
def arrayPair (key : String) (v : QScalar) : String :=
  encodeURIComponent key ++ "[]=" ++ encodeURIComponent v.toStr

/-- The pair pushed for a scalar parameter: `key=value`, both encoded. -/
def scalarPair (key : String) (v : QScalar) : String :=
  encodeURIComponent key ++ "=" ++ encodeURIComponent v.toStr

/-- Shallow embedding of `stringifyQueryParameters` (canvasApi.ts):
a `for..in` loop pushing `key[]=value` per array element and `key=value`
per scalar into `keyValues`, then `""` when empty else `"?"` + join. -/
def stringifyQueryParameters (parameters : QueryParams) : String :=
  let keyValues : List String :=
    parameters.foldl
      (fun acc kv =>
        match kv.2 with
        | .arr vs => acc ++ vs.map (fun v => arrayPair kv.1 v)
        | .scalar v => acc ++ [scalarPair kv.1 v])
      []
  if keyValues = [] then "" else "?" ++ "&".intercalate keyValues

/-- Modelled from the spec (section "Query encoding"): the list of
`key=value` / `key[]=value` pairs a parameter map should produce — one
pair per array element in element order, one pair per scalar, keys and
values percent-encoded, parameters producing no pairs contributing
nothing.  Used to state the refinement of `stringifyQueryParameters`. -/
def specQueryPairs (parameters : QueryParams) : List String :=
  parameters.flatMap
    (fun kv =>
      match kv.2 with
      | .arr vs => vs.map (fun v => arrayPair kv.1 v)
      | .scalar v => [scalarPair kv.1 v])

/-! ## Link header parsing (canvasApi.ts `getNextUrl`) -/

/-- An HTTP header value may be a single string or repeated values. -/
inductive LinkHeader where
  | single (s : String)
  | multi (ls : List String)
deriving DecidableEq, Repr

/-- Scan for a `<...>` group: content of the leftmost match of the JS regex
`<(.*?)>` — starting at the earliest `<` that is followed by a `>` with no
newline in between, taking the shortest content. -/
def takeToClose : List Char → Option (List Char)
  | [] => none
  | c :: r =>
    if c = '>' then some []
    else if c = Char.ofNat 10 then none
    else (takeToClose r).map (fun cs => c :: cs)

def firstAngleMatch : List Char → Option (List Char)
  | [] => none
  | c :: rest =>
    if c = '<' then
      match takeToClose rest with
      | some content => some content
      | none => firstAngleMatch rest
    else firstAngleMatch rest

/-- The literal suffix matched by the JS regex `rel="next"$`. -/
def relNextSuffix : String := "rel=\"next\""

/-- JS `s.split(",")` on character lists: split at every comma, keeping empty
segments, as the JS string method does. -/
def splitCommaAux : List Char → List Char → List (List Char)
  | [], acc => [acc.reverse]
  | c :: r, acc =>
    if c = ',' then acc.reverse :: splitCommaAux r []
    else splitCommaAux r (c :: acc)

/-- JS `headerStr.split(",")`. -/
def splitComma (s : String) : List String :=
  (splitCommaAux s.toList []).map (fun cs => String.mk cs)

/-- Test for `l.search(/rel="next"$/) !== -1`: the entry ends with the literal
`rel="next"`. -/
def strEndsWith (s suffix : String) : Bool :=
  suffix.toList.reverse.isPrefixOf s.toList.reverse

/-- Shallow embedding of `getNextUrl` (canvasApi.ts): join array headers
with `", "`, split on `","`, find the entry ending in `rel="next"`, and
return the content of its `<...>` group. -/
def getNextUrl (linkHeader : LinkHeader) : Option String :=
  let headerStr :=
    match linkHeader with
    | .multi ls => ", ".intercalate ls
    | .single s => s
  let next := (splitComma headerStr).find? (fun l => strEndsWith l relNextSuffix)
  next.bind (fun n => (firstAngleMatch n.toList).map (fun cs => String.mk cs))

/-! ## Rate limiter (rateLimiter.ts) -/

/-- The fixed retry ceiling (`const MAX_RETRIES = 5`). -/
def MAX_RETRIES : Nat := 5

/-- JS `Number.MAX_SAFE_INTEGER`, the wrap point of the call counter. -/
def maxSafeInteger : Nat := 2 ^ 53 - 1

/-- Embedding of `_getCallCounter`: increment the counter, wrapping back to 1 at
`Number.MAX_SAFE_INTEGER`. -/
def nextCounter (c : Nat) : Nat :=
  if maxSafeInteger ≤ c then 1 else c + 1

/-- A response body stream: reading `text()` consumes it.  `data` is the
full content, `consumed` records whether the stream was already read. -/
structure Body where
  data : String
  consumed : Bool
deriving DecidableEq, Repr

/-- Reading `await res.body.text()`: yields the content once and consumes the
stream; a second read of an unreplayed stream yields nothing. -/
def readText (b : Body) : String × Body :=
  (if b.consumed then "" else b.data, { b with consumed := true })

/-- A settled transport response (undici `Dispatcher.ResponseData`):
status code, body stream, and the headers the client inspects. -/
structure RawResponse where
  statusCode : Nat
  body : Body
  link : Option LinkHeader
deriving DecidableEq, Repr

/-- A queued work item as the rate limiter sees it: the sequence id (which
also stands for the resolve/reject handle pair, created together with it)
and the retry counter.  `TRateLimitWorkItem` fields 4 and 5. -/
structure WorkItem where
  id : Nat
  retryCount : Nat
deriving DecidableEq, Repr

/-- The marker text the rate limiter looks for in a 403 body. -/
def rateLimitMarker : String := "Rate Limit Exceeded"

/-- Containment of `m` as a contiguous run in a character list. -/
def charsInclude (m : List Char) : List Char → Bool
  | [] => m.isPrefixOf []
  | c :: r => m.isPrefixOf (c :: r) || charsInclude m r

/-- JS `text.includes(marker)` — substring containment. -/
def textIncludes (marker text : String) : Bool :=
  charsInclude marker.toList text.toList

/-- What the drain loop does with one settled response. -/
inductive DispatchResult where
  /-- `workResolve(res)` was called with this response. -/
  | resolved (res : RawResponse)
  /-- `workReject` was called with the rate-limit-exhausted error. -/
  | rejectedMaxRetries
  /-- The item was `unshift`ed back for retry as this new item. -/
  | requeued (item : WorkItem)
deriving DecidableEq, Repr

/-- Shallow embedding of the drain loop's response handling
(rateLimiter.ts lines 118–160): on a 403, read the body text; if it
contains the marker, reject when `retryCount >= MAX_RETRIES` and
otherwise requeue with `retryCount + 1`; on a 403 without the marker,
replay the buffered text into the body and resolve; any other status
resolves untouched. -/
def handleResponse (item : WorkItem) (res : RawResponse) : DispatchResult :=
  if res.statusCode = 403 then
    let tb := readText res.body
    if textIncludes rateLimitMarker tb.1 then
      if MAX_RETRIES ≤ item.retryCount then
        .rejectedMaxRetries
      else
        .requeued { item with retryCount := item.retryCount + 1 }
    else
      .resolved { res with body := { data := tb.1, consumed := false } }
  else
    .resolved res

/-- Terminal outcome of one queued request. -/
inductive FinalOutcome where
  | settled (res : RawResponse)
  | rateLimitExhausted
deriving DecidableEq, Repr

/-- Iterate dispatch attempts for a single item: attempt `k` is answered by
`resp k`; a requeued item is attempted again.  Fuel bounds the number of
attempts; `none` means the fuel ran out before the item settled. -/
def retryLoop (resp : Nat → RawResponse) :
    Nat → Nat → WorkItem → Option (FinalOutcome × Nat)
  | 0, _, _ => none
  | fuel + 1, k, item =>
    match handleResponse item (resp k) with
    | .resolved r => some (.settled r, k + 1)
    | .rejectedMaxRetries => some (.rateLimitExhausted, k + 1)
    | .requeued item2 => retryLoop resp fuel (k + 1) item2

/-- A response counts as a rate-limit rejection when it is a 403 whose
(unconsumed) body text contains the marker. -/
def isRateLimitResponse (r : RawResponse) : Bool :=
  r.statusCode = 403 && r.body.consumed = false &&
    textIncludes rateLimitMarker r.body.data

/-! ## Response envelopes and the request layer (canvasApi.ts, canvasApiResponse.ts) -/

/-- The parsed JSON body of a page, as far as `Array.isArray` can tell:
either an array of items or some non-array JSON value. -/
inductive PageJson (α : Type) where
  | arr (items : List α)
  | nonArr
deriving DecidableEq, Repr

/-- Envelope `CanvasApiResponse`: status code, raw text, parsed body (`none` when
`JSON.parse` failed, in which case `parseError` is set), and the link
header the pagination engine reads. -/
structure Page (α : Type) where
  statusCode : Nat
  text : String
  json : Option (PageJson α)
  link : Option LinkHeader
deriving DecidableEq, Repr

/-- JS `Array.isArray(page.json)`. -/
def Page.isArrayBody (p : Page α) : Bool :=
  match p.json with
  | some (.arr _) => true
  | _ => false

/-- The error taxonomy (canvasApiError.ts), restricted to the data each
variant carries. -/
inductive ApiError (α : Type) where
  | responseError (response : Page α)
  | requestError
  | timeoutError
  | paginationError (response : Page α)
deriving DecidableEq, Repr

/-- Embedding of `CanvasApiResponse.parseBody`: read the body text once and parse it.
`parse` is the JSON.parse oracle (an external collaborator): `none`
models a parse failure. -/
def parseBodyM (parse : String → Option (PageJson α)) (res : RawResponse) :
    Page α :=
  let tb := readText res.body
  { statusCode := res.statusCode
    text := tb.1
    json := parse tb.1
    link := res.link }

/-- The tail of `CanvasApi._request` after the dispatcher settled the
response: parse the body, then fail with `CanvasApiResponseError`
carrying the parsed envelope whenever `statusCode >= 400`. -/
def requestOutcome (parse : String → Option (PageJson α)) (res : RawResponse) :
    Except (ApiError α) (Page α) :=
  let page := parseBodyM parse res
  if 400 ≤ page.statusCode then .error (.responseError page) else .ok page

/-! ## Pagination engine (canvasApi.ts `listPages` / `listItems`) -/

/-- One request issued by the pagination loop: the raw `url` variable
passed to `_request`, the query parameters passed with it, and the full
URL string actually sent (`new URL(url, apiUrl).toString()` + the
stringified parameters).  `resolve` below is the URL-resolution oracle. -/
structure ReqRec where
  url : String
  params : QueryParams
  sent : String
deriving DecidableEq

/-- JS truthiness of the `headers.link` value (`""` is falsy, an array is
always truthy). -/
def linkTruthy : LinkHeader → Bool
  | .single s => !(s = "")
  | .multi _ => true

/-- Shallow embedding of the `listPages` generator loop: while `url` is
truthy, send a GET for `url` with the current `queryParams`, fail on a
transport error or a status of 400 or more, otherwise yield the parsed
page, set `url` to `response.headers.link && getNextUrl(...)` and clear
`queryParams` (they are used only for the first call).  `fetch` is the
transport-plus-dispatcher oracle keyed by the sent URL; fuel bounds the
number of pages, `none` meaning the chain outlived the fuel. -/
def listPagesGo (fetch : String → Option RawResponse)
    (parse : String → Option (PageJson α)) (resolve : String → String) :
    Nat → String → QueryParams →
    Option (List ReqRec × Except (ApiError α) (List (Page α)))
  | 0, _, _ => none
  | fuel + 1, url, qp =>
    let sent := resolve url ++ stringifyQueryParameters qp
    let rec0 : ReqRec := { url := url, params := qp, sent := sent }
    match fetch sent with
    | none => some ([rec0], .error .requestError)
    | some raw =>
      let page := parseBodyM parse raw
      if 400 ≤ raw.statusCode then
        some ([rec0], .error (.responseError page))
      else
        match raw.link with
        | none => some ([rec0], .ok [page])
        | some lh =>
          if linkTruthy lh then
            match getNextUrl lh with
            | none => some ([rec0], .ok [page])
            | some nextUrl =>
              if nextUrl = "" then
                some ([rec0], .ok [page])
              else
                (listPagesGo fetch parse resolve fuel nextUrl []).map
                  (fun r => (rec0 :: r.1, r.2.map (fun ps => page :: ps)))
          else
            some ([rec0], .ok [page])

/-- The `listItems` generator body: walk the pages; a page whose parsed
body is not an array aborts with `CanvasApiPaginationError` carrying
that page; otherwise the page's elements are yielded in order. -/
def flattenPages : List (Page α) → Except (ApiError α) (List α)
  | [] => .ok []
  | p :: ps =>
    match p.json with
    | some (.arr items) => (flattenPages ps).map (fun rest => items ++ rest)
    | _ => .error (.paginationError p)

/-- Composition `listItems` = `listPages` + flattening, as a whole-sequence value. -/
def listItemsModel (fetch : String → Option RawResponse)
    (parse : String → Option (PageJson α)) (resolve : String → String)
    (fuel : Nat) (endpoint : String) (qp : QueryParams) :
    Option (Except (ApiError α) (List α)) :=
  (listPagesGo fetch parse resolve fuel endpoint qp).map
    (fun r => r.2.bind flattenPages)

/-! ## ExtendedGenerator (extendedGenerator.ts) -/

/-- What one invocation of an upstream producer can do: yield a value,
finish, or throw. -/
inductive UpRes (α : Type) where
  | yields (a : α)
  | done
  | thrown
deriving DecidableEq, Repr

/-- Result of pulling once on a composed generator.  `stuck` only reports
fuel exhaustion of the embedding, never a behaviour of the code. -/
inductive PullOut (α : Type) where
  | yields (a : α)
  | done
  | thrown
  | stuck
deriving DecidableEq, Repr

/-- A generator pipeline: an upstream producer (`source u`, where `u k` is
the outcome of its `k`-th invocation), `filter(predicate)` and `take(n)`
stages as built by `ExtendedGenerator`. -/
inductive LazySeq (α : Type) where
  | source (u : Nat → UpRes α)
  | filter (p : α → Bool) (inner : LazySeq α)
  | take (n : Nat) (inner : LazySeq α)

/-- One `next()` on a pipeline.  Returns the outcome, the pipeline's new
state, and how many times the upstream producer was invoked during this
pull.  `take` checks `while (n > 0)` before touching its inner
generator, so `take 0` answers done with zero upstream invocations;
`filter` keeps pulling its inner generator until the predicate accepts,
burning one fuel per skipped element. -/
def pull : Nat → LazySeq α → PullOut α × LazySeq α × Nat
  | _, .source u =>
    (match u 0 with
      | .yields a => .yields a
      | .done => .done
      | .thrown => .thrown,
     .source (fun k => u (k + 1)), 1)
  | 0, .take n inner =>
    if n = 0 then (.done, .take 0 inner, 0) else (.stuck, .take n inner, 0)
  | fuel + 1, .take n inner =>
    if n = 0 then (.done, .take 0 inner, 0)
    else
      match pull fuel inner with
      | (.yields a, inner2, c) => (.yields a, .take (n - 1) inner2, c)
      | (.done, inner2, c) => (.done, .take 0 inner2, c)
      | (.thrown, inner2, c) => (.thrown, .take 0 inner2, c)
      | (.stuck, inner2, c) => (.stuck, .take n inner2, c)
  | 0, .filter p inner => (.stuck, .filter p inner, 0)
  | fuel + 1, .filter p inner =>
    match pull fuel inner with
    | (.yields a, inner2, c) =>
      if p a then (.yields a, .filter p inner2, c)
      else
        match pull fuel (.filter p inner2) with
        | (r, s2, c2) => (r, s2, c + c2)
    | (.done, inner2, c) => (.done, .filter p inner2, c)
    | (.thrown, inner2, c) => (.thrown, .filter p inner2, c)
    | (.stuck, inner2, c) => (.stuck, .filter p inner2, c)

/-- How a drain (`toArray` / exhausting `for await`) ends. -/
inductive DrainEnd where
  | finished
  | thrown
  | stuck
deriving DecidableEq, Repr

/-- Embedding of `toArray`: repeatedly pull until done (or a throw), collecting the
yielded values in order.  Returns the collected list, the exhausted
pipeline, the total number of upstream invocations and how it ended;
`steps` bounds the number of pulls. -/
def drain (pullFuel : Nat) : Nat → LazySeq α → List α × LazySeq α × Nat × DrainEnd
  | 0, s => ([], s, 0, .stuck)
  | steps + 1, s =>
    match pull pullFuel s with
    | (.yields a, s2, c) =>
      match drain pullFuel steps s2 with
      | (l, s3, c2, e) => (a :: l, s3, c + c2, e)
    | (.done, s2, c) => ([], s2, c, .finished)
    | (.thrown, s2, c) => ([], s2, c, .thrown)
    | (.stuck, s2, c) => ([], s2, c, .stuck)

/-- The upstream producer of a finite list: yields the elements in order,
then reports done. -/
def upOfList (l : List α) (k : Nat) : UpRes α :=
  match l.get? k with
  | some a => .yields a
  | none => .done

/-- A pipeline that is just a finite-list producer. -/
def seqOfList (l : List α) : LazySeq α :=
  .source (upOfList l)

/-! ## The dispatcher queue (rateLimiter.ts `_pendingWorkItems`) -/

/-- A queued item: sequence id (standing also for its resolve/reject
handle pair) and retry counter. -/
structure QItem where
  id : Nat
  retryCount : Nat
deriving DecidableEq, Repr

/-- Dispatcher state under the real drain loop, which fires `workFn()`
without awaiting it: the pending FIFO queue, the items already dispatched
whose responses have not yet settled (their `.then` callbacks have not
run), and the call counter. -/
structure DispState where
  queue : List QItem
  inFlight : List QItem
  counter : Nat
deriving DecidableEq, Repr

/-- The scheduler-visible events of `rateLimiter.ts`: a `request(...)`
call submitting a fresh descriptor (lines 85–92); one iteration of the
drain loop's `while` body, which shifts the head item and fires its
`workFn()` without awaiting (lines 114–117); and the arrival of the
response of the `k`-th in-flight item, running its `.then` callback
(lines 118–174) — `rl = true` when that response is a 403 carrying the
rate-limit marker.  Response arrival order is chosen by the environment,
independently of dispatch order. -/
inductive DispOp where
  | submit
  | dispatch
  | settle (k : Nat) (rl : Bool)
deriving DecidableEq, Repr

/-- Apply one event.  A submission pushes a fresh item with
`retryCount = 0` and the next counter value at the tail.  A dispatch
shifts the head item, fires it (the returned dispatch event) and leaves
it in flight.  A settle removes the `k`-th in-flight item; if its
response was a marked rate-limit rejection and `retryCount <
MAX_RETRIES`, the callback unshifts it back at the head of the queue
with `retryCount + 1` and the same handles; every other outcome
(resolution, rejection at the ceiling, non-rate-limited response)
destroys the item. -/
def applyDispOp (s : DispState) : DispOp → DispState × Option QItem
  | .submit =>
    let c := nextCounter s.counter
    ({ s with queue := s.queue ++ [{ id := c, retryCount := 0 }], counter := c },
     none)
  | .dispatch =>
    match s.queue with
    | [] => (s, none)
    | h :: t =>
      ({ s with queue := t, inFlight := s.inFlight ++ [h] }, some h)
  | .settle k rl =>
    match s.inFlight[k]? with
    | none => (s, none)
    | some item =>
      if rl ∧ item.retryCount < MAX_RETRIES then
        ({ s with
            inFlight := s.inFlight.eraseIdx k
            queue := { item with retryCount := item.retryCount + 1 } :: s.queue },
         none)
      else
        ({ s with inFlight := s.inFlight.eraseIdx k }, none)

/-- Run a list of events, collecting the dispatch trace in order. -/
def runDispOps (s : DispState) : List DispOp → DispState × List QItem
  | [] => (s, [])
  | op :: ops =>
    let r := applyDispOp s op
    let r2 := runDispOps r.1 ops
    (r2.1, r.2.toList ++ r2.2)

/-- Number of submissions in an event list. -/
def countDispSubmits (ops : List DispOp) : Nat :=
  ops.countP (fun op => op = DispOp.submit)

/-! ## The process-wide dispatcher singleton (canvasApi.ts) -/

/-- The value of the module-level `requestWithRateLimitThrottling`
variable once created: the interval it was configured with and the
index of the construction that created it (so that "the exact same
dispatcher" is expressible). -/
structure SharedLimiter where
  limitIntervalMs : Nat
  createdAt : Nat
deriving DecidableEq, Repr

/-- The constructor options the singleton logic reads. -/
structure CtorOptions where
  rateLimitIntervalMs : Option Nat
  disableThrottling : Bool
deriving DecidableEq, Repr

/-- What a constructed instance's `__request__` field points at. -/
inductive RequestFn where
  | passthrough
  | throttled (l : SharedLimiter)
deriving DecidableEq, Repr

/-- One `CanvasApi` constructor run (canvasApi.ts lines 650–660): with
`disableThrottling` the instance bypasses the shared dispatcher
(`undiciRequest`); otherwise `requestWithRateLimitThrottling ??=
rateLimitedRequestFactory({ limitIntervalMs: rateLimitIntervalMs ??
1000 })` creates the shared dispatcher only if absent, and the instance
uses it. -/
def constructClient (shared : Option SharedLimiter) (idx : Nat)
    (opts : CtorOptions) : Option SharedLimiter × RequestFn :=
  if opts.disableThrottling then (shared, .passthrough)
  else
    let l := shared.getD
      { limitIntervalMs := opts.rateLimitIntervalMs.getD 1000, createdAt := idx }
    (some l, .throttled l)

/-- Construct a sequence of client instances in one process, returning the
final module state and each instance's request function. -/
def constructAll (shared : Option SharedLimiter) (idx : Nat) :
    List CtorOptions → Option SharedLimiter × List RequestFn
  | [] => (shared, [])
  | o :: os =>
    let r := constructClient shared idx o
    let rest := constructAll r.1 (idx + 1) os
    (rest.1, r.2 :: rest.2)

/-! ## Theorems -/

/-- The `keyValues` accumulation loop of `stringifyQueryParameters` is the
flat map of the per-parameter pair lists. -/
theorem stringify_foldl_eq (ps : QueryParams) (acc : List String) :
    ps.foldl
      (fun acc kv =>
        match kv.2 with
        | .arr vs => acc ++ vs.map (fun v => arrayPair kv.1 v)
        | .scalar v => acc ++ [scalarPair kv.1 v])
      acc = acc ++ specQueryPairs ps := by
  induction ps generalizing acc with
  | nil => simp [specQueryPairs]
  | cons kv rest ih =>
    match kv with
    | (k, .arr vs) => simp [specQueryPairs, ih]
    | (k, .scalar v) => simp [specQueryPairs, ih]

/-- C4: query-string serialization is a pure function of the parameter map:
each array-valued parameter becomes repeated `key[]=value` pairs in element
order, each scalar parameter a `key=value` pair, keys and values are
percent-encoded, parameters producing no pairs contribute nothing, and when
no pairs remain the result is the empty string rather than a bare `?`;
in particular page/id, empty-map, role-array and percent-encoding examples
evaluate as the spec states. -/
theorem stringifyQueryParameters_spec (ps : QueryParams) :
    stringifyQueryParameters ps =
      (if specQueryPairs ps = [] then ""
       else "?" ++ "&".intercalate (specQueryPairs ps)) ∧
    stringifyQueryParameters
      [("page", .scalar (.num 1)), ("id", .scalar (.str "2"))] = "?page=1&id=2" ∧
    stringifyQueryParameters [] = "" ∧
    stringifyQueryParameters [("role", .arr [.num 3, .num 10])] =
      "?role[]=3&role[]=10" ∧
    stringifyQueryParameters [("role", .arr [])] = "" ∧
    stringifyQueryParameters
      [("search", .scalar (.str "hello world")), ("filter", .scalar (.str "a&b=c"))] =
      "?search=hello%20world&filter=a%26b%3Dc" ∧
    stringifyQueryParameters [("my key", .scalar (.str "value"))] =
      "?my%20key=value" := by
  refine ⟨?_, by decide, by decide, by decide, by decide, by decide, by decide⟩
  unfold stringifyQueryParameters
  rw [stringify_foldl_eq ps []]
  simp

/-- Unpack `isRateLimitResponse`. -/
theorem isRateLimitResponse_iff (r : RawResponse) :
    isRateLimitResponse r = true ↔
      r.statusCode = 403 ∧ r.body.consumed = false ∧
      textIncludes rateLimitMarker r.body.data = true := by
  simp [isRateLimitResponse, Bool.and_eq_true, decide_eq_true_eq]
  tauto

/-- On a marked rate-limit response, an item whose `retryCount` is still
below the ceiling is requeued with `retryCount + 1`. -/
theorem handleResponse_requeue (item : WorkItem) (r : RawResponse)
    (hr : isRateLimitResponse r = true) (hlt : item.retryCount < MAX_RETRIES) :
    handleResponse item r =
      .requeued { item with retryCount := item.retryCount + 1 } := by
  obtain ⟨h1, h2, h3⟩ := (isRateLimitResponse_iff r).mp hr
  simp [handleResponse, readText, h1, h2, h3, Nat.not_le.mpr hlt]

/-- On a marked rate-limit response, an item whose `retryCount` reached
the ceiling is rejected. -/
theorem handleResponse_reject (item : WorkItem) (r : RawResponse)
    (hr : isRateLimitResponse r = true) (hge : MAX_RETRIES ≤ item.retryCount) :
    handleResponse item r = .rejectedMaxRetries := by
  obtain ⟨h1, h2, h3⟩ := (isRateLimitResponse_iff r).mp hr
  simp [handleResponse, readText, h1, h2, h3, hge]

/-- Inversion: a requeue only happens below the ceiling, and increments
the retry counter by exactly one. -/
theorem handleResponse_requeue_inv (item : WorkItem) (r : RawResponse)
    (item2 : WorkItem) (h : handleResponse item r = .requeued item2) :
    item2.retryCount = item.retryCount + 1 ∧ item.retryCount < MAX_RETRIES := by
  simp only [handleResponse] at h
  split_ifs at h with h1 h2 h3
  cases h
  exact ⟨rfl, Nat.not_le.mp h3⟩

/-- Under an always-rate-limited response oracle, `retryLoop` rejects
after exactly the attempts remaining before the ceiling. -/
theorem retryLoop_alwaysLimited (resp : Nat → RawResponse)
    (hresp : ∀ k, isRateLimitResponse (resp k) = true) :
    ∀ d c, c + d = MAX_RETRIES → ∀ fuel k i,
      retryLoop resp (d + 1 + fuel) k { id := i, retryCount := c } =
        some (.rateLimitExhausted, k + d + 1) := by
  intro d
  induction d with
  | zero =>
    intro c hc fuel k i
    have hc5 : c = MAX_RETRIES := by omega
    subst hc5
    rw [show 0 + 1 + fuel = fuel + 1 by omega]
    simp only [retryLoop]
    rw [handleResponse_reject ⟨i, MAX_RETRIES⟩ (resp k) (hresp k) (le_refl _)]
  | succ d ih =>
    intro c hc fuel k i
    have hlt : c < MAX_RETRIES := by omega
    rw [show d + 1 + 1 + fuel = (d + 1 + fuel) + 1 by omega]
    simp only [retryLoop]
    rw [handleResponse_requeue ⟨i, c⟩ (resp k) (hresp k) hlt]
    have hrec := ih (c + 1) (by omega) fuel (k + 1) i
    rw [show k + (d + 1) + 1 = k + 1 + d + 1 by omega]
    exact hrec

/-- C1: the retry ceiling.  If every dispatch attempt for an item comes
back as a 403 whose body contains the literal "Rate Limit Exceeded", the
dispatcher requeues it only while `retryCount` is below 5 (each requeue
incrementing the count by one, so it never exceeds 5), rejects the pending
handle as soon as a marked rejection arrives with `retryCount` at 5, and
in particular an item submitted with `retryCount = 0` terminates in the
rate-limit-exhausted failure after exactly 6 attempts — never an unbounded
retry loop. -/
theorem rateLimit_retry_ceiling (resp : Nat → RawResponse)
    (hresp : ∀ k, isRateLimitResponse (resp k) = true) (i extra : Nat) :
    retryLoop resp (MAX_RETRIES + 1 + extra) 0 { id := i, retryCount := 0 } =
      some (.rateLimitExhausted, MAX_RETRIES + 1) ∧
    (∀ item r item2, handleResponse item r = .requeued item2 →
      item2.retryCount = item.retryCount + 1 ∧ item.retryCount < MAX_RETRIES) ∧
    (∀ item r, isRateLimitResponse r = true → MAX_RETRIES ≤ item.retryCount →
      handleResponse item r = .rejectedMaxRetries) := by
  refine ⟨?_, fun item r item2 h => handleResponse_requeue_inv item r item2 h,
    fun item r hr hge => handleResponse_reject item r hr hge⟩
  have := retryLoop_alwaysLimited resp hresp MAX_RETRIES 0 (by omega) extra 0 i
  simpa using this

/-- The always-rate-limited response used to witness the retry ceiling. -/
def limitedResp : RawResponse :=
  { statusCode := 403
    body := { data := "403 Forbidden (Rate Limit Exceeded)", consumed := false }
    link := none }

/-- Concrete instance of the retry ceiling: six marked 403s reject the
item. -/
theorem rateLimit_retry_ceiling_witness :
    (∀ k : Nat, isRateLimitResponse ((fun _ => limitedResp) k) = true) ∧
    (retryLoop (fun _ => limitedResp) (MAX_RETRIES + 1 + 0) 0
        { id := 1, retryCount := 0 } =
      some (.rateLimitExhausted, MAX_RETRIES + 1) ∧
    (∀ item r item2, handleResponse item r = .requeued item2 →
      item2.retryCount = item.retryCount + 1 ∧ item.retryCount < MAX_RETRIES) ∧
    (∀ item r, isRateLimitResponse r = true → MAX_RETRIES ≤ item.retryCount →
      handleResponse item r = .rejectedMaxRetries)) := by
  have hres : ∀ k : Nat, isRateLimitResponse ((fun _ => limitedResp) k) = true := by
    intro k
    show isRateLimitResponse limitedResp = true
    decide
  exact ⟨hres, rateLimit_retry_ceiling (fun _ => limitedResp) hres 1 0⟩

/-- C2: a 403 without the rate-limit marker is never requeued: the handle
is resolved immediately with the response, whose consumed body stream is
replaced by a replay of the buffered text, so the downstream `parseBody`
still reads the original body; and since the status is 403 ≥ 400, the
caller receives a `CanvasApiResponseError` whose envelope carries the
original body text intact. -/
theorem ordinary403_passthrough {α : Type} (item : WorkItem) (res : RawResponse)
    (parse : String → Option (PageJson α))
    (h403 : res.statusCode = 403) (hfresh : res.body.consumed = false)
    (hnomark : textIncludes rateLimitMarker res.body.data = false) :
    ∃ res2,
      handleResponse item res = .resolved res2 ∧
      (∀ item2, handleResponse item res ≠ .requeued item2) ∧
      res2.body.data = res.body.data ∧
      res2.body.consumed = false ∧
      (parseBodyM parse res2).text = res.body.data ∧
      requestOutcome parse res2 =
        .error (.responseError
          { statusCode := 403
            text := res.body.data
            json := parse res.body.data
            link := res.link }) := by
  refine ⟨{ res with body := { data := res.body.data, consumed := false } },
    ?_, ?_, rfl, rfl, ?_, ?_⟩
  · simp [handleResponse, readText, h403, hfresh, hnomark]
  · intro item2 hbad
    have := handleResponse_requeue_inv item res item2 hbad
    have hres : handleResponse item res =
        .resolved { res with body := { data := res.body.data, consumed := false } } := by
      simp [handleResponse, readText, h403, hfresh, hnomark]
    rw [hres] at hbad
    cases hbad
  · simp [parseBodyM, readText]
  · simp [requestOutcome, parseBodyM, readText, h403]

/-- Concrete instance of the ordinary-403 pass-through: the permissions
403 from the test suite surfaces as a `ResponseError` with its body
replayed. -/
theorem ordinary403_passthrough_witness :
    (({ statusCode := 403
        body := { data := "403 Forbidden (Permissions)", consumed := false }
        link := none } : RawResponse).statusCode = 403) ∧
    (({ statusCode := 403
        body := { data := "403 Forbidden (Permissions)", consumed := false }
        link := none } : RawResponse).body.consumed = false) ∧
    (textIncludes rateLimitMarker "403 Forbidden (Permissions)" = false) ∧
    ∃ res2,
      handleResponse { id := 1, retryCount := 0 }
        { statusCode := 403
          body := { data := "403 Forbidden (Permissions)", consumed := false }
          link := none } = .resolved res2 ∧
      (∀ item2, handleResponse { id := 1, retryCount := 0 }
        { statusCode := 403
          body := { data := "403 Forbidden (Permissions)", consumed := false }
          link := none } ≠ .requeued item2) ∧
      res2.body.data = "403 Forbidden (Permissions)" ∧
      res2.body.consumed = false ∧
      (parseBodyM (fun _ => (none : Option (PageJson Nat))) res2).text =
        "403 Forbidden (Permissions)" ∧
      requestOutcome (fun _ => (none : Option (PageJson Nat))) res2 =
        .error (.responseError
          { statusCode := 403
            text := "403 Forbidden (Permissions)"
            json := none
            link := none }) :=
  ⟨rfl, rfl, by decide,
    ordinary403_passthrough { id := 1, retryCount := 0 } _ _ rfl rfl (by decide)⟩

/-- Pulling `take 0` answers done immediately, with zero upstream invocations. -/
theorem pull_take_zero (fuel : Nat) (inner : LazySeq α) :
    pull fuel (.take 0 inner) = (.done, .take 0 inner, 0) := by
  cases fuel <;> simp [pull]

/-- Pulling a source invokes its producer once. -/
theorem pull_source (fuel : Nat) (u : Nat → UpRes α) :
    pull fuel (.source u) =
      (match u 0 with
        | .yields a => .yields a
        | .done => .done
        | .thrown => .thrown,
       .source (fun k => u (k + 1)), 1) := by
  cases fuel <;> rfl

/-- C6: `take(0)` is observably lazy: draining it yields the empty list,
finishes cleanly, and performs zero invocations of the upstream producer —
for every upstream producer (including one that throws on its first pull,
since `u` is arbitrary), and also when `take(0)` is chained after
`filter`. -/
theorem take_zero_never_pulls {α : Type} (u : Nat → UpRes α) (p : α → Bool)
    (pullFuel steps : Nat) :
    drain pullFuel (steps + 1) (.take 0 (.filter p (.source u))) =
      ([], .take 0 (.filter p (.source u)), 0, .finished) ∧
    drain pullFuel (steps + 1) (.take 0 (.source u)) =
      ([], .take 0 (.source u), 0, .finished) := by
  constructor <;> simp [drain, pull_take_zero]

/-- Shifting the producer of `a :: t` by one gives the producer of `t`. -/
theorem upOfList_shift (a : α) (t : List α) :
    (fun k => upOfList (a :: t) (k + 1)) = upOfList t := by
  funext k
  simp [upOfList]

/-- Draining a list-producer source yields exactly the list and leaves an
exhausted producer behind. -/
theorem drain_seqList_aux (pf : Nat) :
    ∀ (l : List α) (u : Nat → UpRes α), (∀ k, u k = upOfList l k) →
    ∀ extra, ∃ u2,
      drain pf (l.length + 1 + extra) (.source u) =
        (l, .source u2, l.length + 1, .finished) ∧
      (∀ k, u2 k = UpRes.done) := by
  intro l
  induction l with
  | nil =>
    intro u hu extra
    refine ⟨fun k => u (k + 1), ?_, fun k => by
      show u (k + 1) = UpRes.done
      rw [hu (k + 1)]
      simp [upOfList]⟩
    rw [show List.length ([] : List α) + 1 + extra = extra + 1 by
      simp only [List.length_nil]; omega]
    simp [drain, pull_source, hu 0, upOfList]
  | cons a t ih =>
    intro u hu extra
    have hshift : ∀ k, (fun k => u (k + 1)) k = upOfList t k := by
      intro k
      show u (k + 1) = upOfList t k
      rw [hu (k + 1)]
      simp [upOfList]
    obtain ⟨u2, hdrain, hdone⟩ := ih (fun k => u (k + 1)) hshift extra
    refine ⟨u2, ?_, hdone⟩
    rw [show (a :: t).length + 1 + extra = (t.length + 1 + extra) + 1 by
      simp only [List.length_cons]; omega]
    simp only [drain, pull_source, hu 0, upOfList]
    simp only [List.get?]
    rw [hdrain]
    simp only [List.length_cons]
    refine congrArg (fun n => (a :: t, LazySeq.source u2, n, DrainEnd.finished)) ?_
    omega

/-- Draining an exhausted producer yields nothing. -/
theorem drain_done_src (pf steps : Nat) (u2 : Nat → UpRes α)
    (h : ∀ k, u2 k = UpRes.done) :
    (drain pf (steps + 1) (.source u2)).1 = ([] : List α) := by
  simp [drain, pull, h 0]

/-- C7: the sequence is single-pass: pulling one element manually yields
the head, collecting afterwards returns exactly the remaining elements in
order, a full collection returns the whole list, and collecting the
already-exhausted sequence afterwards returns the empty list — collection
never restarts the sequence. -/
theorem singlePass_collect {α : Type} (l : List α) (a : α) (t : List α)
    (hl : l = a :: t) (pf extra : Nat) :
    (pull pf (seqOfList l)).1 = .yields a ∧
    (drain pf (t.length + 1 + extra) (pull pf (seqOfList l)).2.1).1 = t ∧
    (drain pf (l.length + 1 + extra) (seqOfList l)).1 = l ∧
    (∀ steps,
      (drain pf (steps + 1)
        (drain pf (l.length + 1 + extra) (seqOfList l)).2.1).1 = ([] : List α)) := by
  subst hl
  refine ⟨by simp [pull, seqOfList, upOfList], ?_, ?_, ?_⟩
  · have hpull : (pull pf (seqOfList (a :: t))).2.1 =
        .source (fun k => upOfList (a :: t) (k + 1)) := by
      simp [pull, seqOfList, upOfList]
    rw [hpull]
    obtain ⟨u2, hdrain, _⟩ := drain_seqList_aux pf t
      (fun k => upOfList (a :: t) (k + 1))
      (fun k => by rw [upOfList_shift]) extra
    rw [hdrain]
  · obtain ⟨u2, hdrain, _⟩ := drain_seqList_aux pf (a :: t)
      (upOfList (a :: t)) (fun k => rfl) extra
    rw [show seqOfList (a :: t) = .source (upOfList (a :: t)) from rfl, hdrain]
  · intro steps
    obtain ⟨u2, hdrain, hdone⟩ := drain_seqList_aux pf (a :: t)
      (upOfList (a :: t)) (fun k => rfl) extra
    rw [show seqOfList (a :: t) = .source (upOfList (a :: t)) from rfl, hdrain]
    exact drain_done_src pf steps u2 hdone

/-- Concrete instance of single-pass collection on `[1,2,3]`. -/
theorem singlePass_collect_witness :
    ([1, 2, 3] = 1 :: [2, 3]) ∧
    ((pull 1 (seqOfList [1, 2, 3])).1 = .yields 1 ∧
    (drain 1 ([2, 3].length + 1 + 0) (pull 1 (seqOfList [1, 2, 3])).2.1).1 = [2, 3] ∧
    (drain 1 ([1, 2, 3].length + 1 + 0) (seqOfList [1, 2, 3])).1 = [1, 2, 3] ∧
    (∀ steps,
      (drain 1 (steps + 1)
        (drain 1 ([1, 2, 3].length + 1 + 0) (seqOfList [1, 2, 3])).2.1).1 =
        ([] : List Nat))) :=
  ⟨rfl, singlePass_collect [1, 2, 3] 1 [2, 3] rfl 1 0⟩

/-- The items contributed by one page (its parsed array, if any). -/
def pageItemsOf (p : Page α) : List α :=
  match p.json with
  | some (.arr items) => items
  | _ => []

/-- Transport oracle for the two-page courses resource and the
single-object resource of the test suite. -/
def pagesFetchEx : String → Option RawResponse := fun u =>
  if u = "courses/page1" then
    some { statusCode := 200
           body := { data := "[1,2,3]", consumed := false }
           link := some (.single "<courses/page2>; rel=\"next\"") }
  else if u = "courses/page2" then
    some { statusCode := 200
           body := { data := "[4,5]", consumed := false }
           link := none }
  else if u = "single" then
    some { statusCode := 200
           body := { data := "obj", consumed := false }
           link := none }
  else none

/-- JSON.parse oracle for the bodies served by `pagesFetchEx`. -/
def pagesParseEx : String → Option (PageJson Nat) := fun t =>
  if t = "[1,2,3]" then some (.arr [1, 2, 3])
  else if t = "[4,5]" then some (.arr [4, 5])
  else if t = "obj" then some .nonArr
  else none

/-- The page parsed from the single-object endpoint of `pagesFetchEx`. -/
def singlePageEx : Page Nat :=
  { statusCode := 200, text := "obj", json := some .nonArr, link := none }

/-- Flattening a run of array pages followed by a non-array page fails
with the pagination error of that first offending page. -/
theorem flattenPages_firstBad {α : Type} (good rest : List (Page α))
    (bad : Page α) (hgood : ∀ p ∈ good, p.isArrayBody = true)
    (hbad : bad.isArrayBody = false) :
    flattenPages (good ++ bad :: rest) = .error (.paginationError bad) := by
  induction good with
  | nil =>
    simp only [List.nil_append, flattenPages]
    match hjson : bad.json with
    | some (.arr items) => rw [Page.isArrayBody, hjson] at hbad; cases hbad
    | some .nonArr => rfl
    | none => rfl
  | cons g gs ih =>
    have hg := hgood g (by simp)
    have hgs : ∀ p ∈ gs, p.isArrayBody = true := fun p hp => hgood p (by simp [hp])
    simp only [List.cons_append, flattenPages]
    match hjson : g.json with
    | some (.arr items) =>
      simp only [List.append_eq]
      rw [ih hgs]
      rfl
    | some .nonArr => rw [Page.isArrayBody, hjson] at hg; cases hg
    | none => rw [Page.isArrayBody, hjson] at hg; cases hg

/-- Flattening all-array pages yields every element of every page in
order. -/
theorem flattenPages_allGood {α : Type} (pages : List (Page α))
    (hall : ∀ p ∈ pages, p.isArrayBody = true) :
    flattenPages pages = .ok (pages.flatMap pageItemsOf) := by
  induction pages with
  | nil => rfl
  | cons p ps ih =>
    have hp := hall p (by simp)
    have hps : ∀ q ∈ ps, q.isArrayBody = true := fun q hq => hall q (by simp [hq])
    simp only [flattenPages, List.flatMap_cons]
    match hjson : p.json with
    | some (.arr items) =>
      rw [ih hps]
      simp only [pageItemsOf, hjson]
      rfl
    | some .nonArr => rw [Page.isArrayBody, hjson] at hp; cases hp
    | none => rw [Page.isArrayBody, hjson] at hp; cases hp

/-- C3: during item-level pagination, a page whose parsed body is not a
list fails the sequence with a `PaginationError` carrying that page's
envelope (the first such page), and otherwise every element of every
page's list is yielded in order; concretely, a two-page resource of
`[1,2,3]` then `[4,5]` linked by `rel="next"` yields `[1,2,3,4,5]`, and a
single-object endpoint fails with `PaginationError`. -/
theorem listItems_spec {α : Type} (pages good rest : List (Page α))
    (bad : Page α)
    (hgood : ∀ p ∈ good, p.isArrayBody = true)
    (hbad : bad.isArrayBody = false)
    (hall : ∀ p ∈ pages, p.isArrayBody = true) :
    flattenPages (good ++ bad :: rest) = .error (.paginationError bad) ∧
    flattenPages pages = .ok (pages.flatMap pageItemsOf) ∧
    listItemsModel pagesFetchEx pagesParseEx id 10 "courses/page1" [] =
      some (.ok [1, 2, 3, 4, 5]) ∧
    listItemsModel pagesFetchEx pagesParseEx id 10 "single" [] =
      some (.error (.paginationError singlePageEx)) :=
  ⟨flattenPages_firstBad good rest bad hgood hbad,
   flattenPages_allGood pages hall, by rfl, by rfl⟩

/-- Concrete instance of the item-level pagination contract. -/
theorem listItems_spec_witness :
    (∀ p ∈ ([] : List (Page Nat)), p.isArrayBody = true) ∧
    (singlePageEx.isArrayBody = false) ∧
    (flattenPages ([] ++ singlePageEx :: []) =
      .error (.paginationError singlePageEx) ∧
    flattenPages ([] : List (Page Nat)) =
      .ok (([] : List (Page Nat)).flatMap pageItemsOf) ∧
    listItemsModel pagesFetchEx pagesParseEx id 10 "courses/page1" [] =
      some (.ok [1, 2, 3, 4, 5]) ∧
    listItemsModel pagesFetchEx pagesParseEx id 10 "single" [] =
      some (.error (.paginationError singlePageEx))) := by
  refine ⟨by simp, by decide, ?_⟩
  exact listItems_spec [] [] [] singlePageEx (by simp) (by decide) (by simp)

/-- Inversion of one step of the pagination loop: the first recorded
request is always for the given url/params pair, and the loop either
stops there or recurses on the next-link URL with empty parameters. -/
theorem listPagesGo_inv {α : Type} (fetch : String → Option RawResponse)
    (parse : String → Option (PageJson α)) (resolve : String → String)
    (f : Nat) (url : String) (qp : QueryParams) (rs : List ReqRec)
    (res : Except (ApiError α) (List (Page α)))
    (h : listPagesGo fetch parse resolve (f + 1) url qp = some (rs, res)) :
    rs.head? = some ⟨url, qp, resolve url ++ stringifyQueryParameters qp⟩ ∧
    (rs = [⟨url, qp, resolve url ++ stringifyQueryParameters qp⟩] ∨
     ∃ raw lh nextUrl rs2 res2,
       fetch (resolve url ++ stringifyQueryParameters qp) = some raw ∧
       raw.link = some lh ∧ getNextUrl lh = some nextUrl ∧
       listPagesGo fetch parse resolve f nextUrl [] = some (rs2, res2) ∧
       rs = ⟨url, qp, resolve url ++ stringifyQueryParameters qp⟩ :: rs2 ∧
       res = Except.map (fun ps => parseBodyM parse raw :: ps) res2) := by
  simp only [listPagesGo] at h
  cases hfetch : fetch (resolve url ++ stringifyQueryParameters qp) with
  | none =>
    simp only [hfetch] at h
    simp only [Option.some.injEq, Prod.mk.injEq] at h
    obtain ⟨rfl, rfl⟩ := h
    exact ⟨rfl, Or.inl rfl⟩
  | some raw =>
    simp only [hfetch] at h
    by_cases h400 : 400 ≤ raw.statusCode
    · rw [if_pos h400] at h
      simp only [Option.some.injEq, Prod.mk.injEq] at h
      obtain ⟨rfl, rfl⟩ := h
      exact ⟨rfl, Or.inl rfl⟩
    · rw [if_neg h400] at h
      cases hlink : raw.link with
      | none =>
        simp only [hlink] at h
        simp only [Option.some.injEq, Prod.mk.injEq] at h
        obtain ⟨rfl, rfl⟩ := h
        exact ⟨rfl, Or.inl rfl⟩
      | some lh =>
        simp only [hlink] at h
        by_cases htr : linkTruthy lh = true
        · rw [if_pos htr] at h
          cases hnext : getNextUrl lh with
          | none =>
            simp only [hnext] at h
            simp only [Option.some.injEq, Prod.mk.injEq] at h
            obtain ⟨rfl, rfl⟩ := h
            exact ⟨rfl, Or.inl rfl⟩
          | some nextUrl =>
            simp only [hnext] at h
            by_cases hemp : nextUrl = ""
            · rw [if_pos hemp] at h
              simp only [Option.some.injEq, Prod.mk.injEq] at h
              obtain ⟨rfl, rfl⟩ := h
              exact ⟨rfl, Or.inl rfl⟩
            · rw [if_neg hemp] at h
              rw [Option.map_eq_some'] at h
              obtain ⟨⟨rs2, res2⟩, hrec, heq⟩ := h
              simp only [Prod.mk.injEq] at heq
              obtain ⟨hrs, hres⟩ := heq
              subst hrs
              subst hres
              exact ⟨rfl, Or.inr ⟨raw, lh, nextUrl, rs2, res2,
                rfl, hlink, hnext, hrec, rfl, rfl⟩⟩
        · rw [if_neg htr] at h
          simp only [Option.some.injEq, Prod.mk.injEq] at h
          obtain ⟨rfl, rfl⟩ := h
          exact ⟨rfl, Or.inl rfl⟩

/-- Every request of a pagination run started with empty parameters
carries empty parameters, and its sent URL is the bare resolved URL. -/
theorem listPagesGo_nil_params {α : Type} (fetch : String → Option RawResponse)
    (parse : String → Option (PageJson α)) (resolve : String → String) :
    ∀ f url rs res,
      listPagesGo fetch parse resolve f url [] = some (rs, res) →
      ∀ r ∈ rs, r.params = [] ∧ r.sent = resolve r.url := by
  intro f
  induction f with
  | zero =>
    intro url rs res h
    simp [listPagesGo] at h
  | succ f ih =>
    intro url rs res h
    obtain ⟨hhead, hrest⟩ := listPagesGo_inv fetch parse resolve f url [] rs res h
    rcases hrest with hsingle | ⟨raw, lh, nextUrl, rs2, res2, _, _, _, hrec, hrs, _⟩
    · subst hsingle
      intro r hr
      rw [List.mem_singleton] at hr
      subst hr
      exact ⟨rfl, by simp [stringifyQueryParameters, String.append_empty]⟩
    · subst hrs
      intro r hr
      rcases List.mem_cons.mp hr with hr0 | hr2
      · subst hr0
        exact ⟨rfl, by simp [stringifyQueryParameters, String.append_empty]⟩
      · exact ih nextUrl rs2 res2 hrec r hr2

/-- In a successful pagination run, the (i+1)-st request's raw URL is the
next-URL extracted from the i-th page's link header. -/
theorem listPagesGo_chain {α : Type} (fetch : String → Option RawResponse)
    (parse : String → Option (PageJson α)) (resolve : String → String) :
    ∀ f url qp rs pages,
      listPagesGo fetch parse resolve f url qp = some (rs, .ok pages) →
      ∀ i r, rs.get? (i + 1) = some r →
        ∃ p lh, pages.get? i = some p ∧ p.link = some lh ∧
          getNextUrl lh = some r.url := by
  intro f
  induction f with
  | zero =>
    intro url qp rs pages h
    simp [listPagesGo] at h
  | succ f ih =>
    intro url qp rs pages h i r hget
    obtain ⟨hhead, hrest⟩ := listPagesGo_inv fetch parse resolve f url qp rs _ h
    rcases hrest with hsingle | ⟨raw, lh, nextUrl, rs2, res2, hfetch, hlink,
      hnext, hrec, hrs, hres⟩
    · subst hsingle
      simp at hget
    · subst hrs
      cases res2 with
      | error e => simp [Except.map] at hres
      | ok pages2 =>
        have hpages : pages = parseBodyM parse raw :: pages2 := by
          simpa [Except.map] using hres
        subst hpages
        cases i with
        | zero =>
          rw [List.get?_cons_succ] at hget
          cases f with
          | zero => simp [listPagesGo] at hrec
          | succ f2 =>
            obtain ⟨hhead2, _⟩ := listPagesGo_inv fetch parse resolve f2
              nextUrl [] rs2 (.ok pages2) hrec
            cases rs2 with
            | nil => cases hget
            | cons r0 rs3 =>
              simp only [List.get?_cons_zero, Option.some.injEq] at hget
              subst hget
              simp only [List.head?_cons, Option.some.injEq] at hhead2
              refine ⟨parseBodyM parse raw, lh, rfl, ?_, ?_⟩
              · show raw.link = some lh
                exact hlink
              · rw [hhead2]
                exact hnext
        | succ i2 =>
          rw [List.get?_cons_succ] at hget
          obtain ⟨p, lh2, hp, hpl, hpn⟩ := ih nextUrl [] rs2 pages2 hrec i2 r hget
          exact ⟨p, lh2, by rw [List.get?_cons_succ]; exact hp, hpl, hpn⟩

/-- Transport oracle for the assignments example: a first page reached
with `?arg=1` whose next link embeds its own query parameters. -/
def assignFetchEx : String → Option RawResponse := fun u =>
  if u = "assignments/page1?arg=1" then
    some { statusCode := 200
           body := { data := "[1,2,3]", consumed := false }
           link := some (.single "<assignments/page2?other=2>; rel=\"next\"") }
  else if u = "assignments/page2?other=2" then
    some { statusCode := 200
           body := { data := "[4,5]", consumed := false }
           link := none }
  else none

/-- C9: the supplied query parameters are appended only to the first
request of a pagination traversal; every subsequent request carries empty
parameters and its sent URL is exactly the resolved next-link URL with
nothing re-merged, that next-link URL being taken verbatim from the prior
page's link header; concretely, the assignments traversal sends
`assignments/page1?arg=1` then the embedded `assignments/page2?other=2`
untouched. -/
theorem listPages_params_once {α : Type} (fetch : String → Option RawResponse)
    (parse : String → Option (PageJson α)) (resolve : String → String)
    (fuel : Nat) (url : String) (qp : QueryParams) (rs : List ReqRec)
    (res : Except (ApiError α) (List (Page α)))
    (h : listPagesGo fetch parse resolve (fuel + 1) url qp = some (rs, res)) :
    rs.head? = some ⟨url, qp, resolve url ++ stringifyQueryParameters qp⟩ ∧
    (∀ r ∈ rs.tail, r.params = [] ∧ r.sent = resolve r.url) ∧
    (∀ pages, res = .ok pages →
      ∀ i r, rs.get? (i + 1) = some r →
        ∃ p lh, pages.get? i = some p ∧ p.link = some lh ∧
          getNextUrl lh = some r.url) ∧
    (listPagesGo assignFetchEx pagesParseEx id 10 "assignments/page1"
        [("arg", QValue.scalar (.num 1))]).map (fun r => r.1) =
      some
        [⟨"assignments/page1", [("arg", QValue.scalar (.num 1))],
           "assignments/page1?arg=1"⟩,
         ⟨"assignments/page2?other=2", [], "assignments/page2?other=2"⟩] := by
  obtain ⟨hhead, hrest⟩ := listPagesGo_inv fetch parse resolve fuel url qp rs res h
  refine ⟨hhead, ?_, ?_, by rfl⟩
  · rcases hrest with hsingle | ⟨raw, lh, nextUrl, rs2, res2, _, _, _, hrec, hrs, _⟩
    · subst hsingle
      intro r hr
      cases hr
    · subst hrs
      intro r hr
      exact listPagesGo_nil_params fetch parse resolve fuel nextUrl rs2 res2 hrec r hr
  · intro pages hres i r hget
    subst hres
    exact listPagesGo_chain fetch parse resolve (fuel + 1) url qp rs pages h i r hget

/-- Concrete instance of the params-once contract: a failing transport
still records exactly one request, for the given endpoint and params. -/
theorem listPages_params_once_witness :
    (listPagesGo (α := Nat) (fun _ => none) (fun _ => none) id (0 + 1) "ep"
        [("a", QValue.scalar (.num 1))] =
      some ([⟨"ep", [("a", QValue.scalar (.num 1))], "ep?a=1"⟩],
        .error .requestError)) ∧
    (([⟨"ep", [("a", QValue.scalar (.num 1))], "ep?a=1"⟩] : List ReqRec).head? =
      some ⟨"ep", [("a", QValue.scalar (.num 1))],
        id "ep" ++ stringifyQueryParameters [("a", QValue.scalar (.num 1))]⟩ ∧
    (∀ r ∈ ([⟨"ep", [("a", QValue.scalar (.num 1))], "ep?a=1"⟩] :
        List ReqRec).tail,
      r.params = [] ∧ r.sent = id r.url) ∧
    (∀ pages, (.error .requestError : Except (ApiError Nat) (List (Page Nat))) =
        .ok pages →
      ∀ i r, ([⟨"ep", [("a", QValue.scalar (.num 1))], "ep?a=1"⟩] :
          List ReqRec).get? (i + 1) = some r →
        ∃ p lh, pages.get? i = some p ∧ p.link = some lh ∧
          getNextUrl lh = some r.url) ∧
    (listPagesGo assignFetchEx pagesParseEx id 10 "assignments/page1"
        [("arg", QValue.scalar (.num 1))]).map (fun r => r.1) =
      some
        [⟨"assignments/page1", [("arg", QValue.scalar (.num 1))],
           "assignments/page1?arg=1"⟩,
         ⟨"assignments/page2?other=2", [], "assignments/page2?other=2"⟩]) :=
  ⟨by rfl, listPages_params_once (fun _ => none) (fun _ => none) id 0 "ep"
    [("a", QValue.scalar (.num 1))] _ _ (by rfl)⟩

theorem countDispSubmits_cons_submit (ops : List DispOp) :
    countDispSubmits (DispOp.submit :: ops) = countDispSubmits ops + 1 := by
  simp [countDispSubmits, List.countP_cons]

theorem countDispSubmits_cons_dispatch (ops : List DispOp) :
    countDispSubmits (DispOp.dispatch :: ops) = countDispSubmits ops := by
  simp [countDispSubmits, List.countP_cons]

theorem countDispSubmits_cons_settle (k : Nat) (rl : Bool) (ops : List DispOp) :
    countDispSubmits (DispOp.settle k rl :: ops) = countDispSubmits ops := by
  simp [countDispSubmits, List.countP_cons]

/-- Settling a marked rate-limit response below the ceiling reinserts the
item at the queue head with `retryCount + 1` and the same id. -/
theorem applyDispOp_settle_requeue (s : DispState) (k : Nat) (item : QItem)
    (hk : s.inFlight[k]? = some item)
    (hlt : item.retryCount < MAX_RETRIES) :
    applyDispOp s (.settle k true) =
      ({ s with
          inFlight := s.inFlight.eraseIdx k
          queue := { item with retryCount := item.retryCount + 1 } :: s.queue },
       none) := by
  simp [applyDispOp, hk, hlt]

/-- Every other settling outcome just destroys the in-flight item. -/
theorem applyDispOp_settle_drop (s : DispState) (k : Nat) (item : QItem)
    (rl : Bool) (hk : s.inFlight[k]? = some item)
    (hc : ¬ (rl = true ∧ item.retryCount < MAX_RETRIES)) :
    applyDispOp s (.settle k rl) =
      ({ s with inFlight := s.inFlight.eraseIdx k }, none) := by
  simp only [applyDispOp, hk]
  rw [if_neg hc]

/-- Head-priority shape of the queue: once a first-attempt item appears,
everything behind it is also a first attempt, i.e. retried items always
sit ahead of not-yet-attempted ones. -/
def retriedAhead (q : List QItem) : Prop :=
  List.Pairwise (fun a b => a.retryCount = 0 → b.retryCount = 0) q

/-- Each event preserves the head-priority shape: submissions append
fresh items at the tail, dispatches remove the head, and requeues unshift
a retried item at the head. -/
theorem applyDispOp_retriedAhead (s : DispState) (op : DispOp)
    (h : retriedAhead s.queue) : retriedAhead (applyDispOp s op).1.queue := by
  cases op with
  | submit =>
    simp only [applyDispOp]
    refine List.pairwise_append.mpr ⟨h, List.pairwise_singleton _ _, ?_⟩
    intro a ha b hb
    rw [List.mem_singleton] at hb
    subst hb
    intro _
    rfl
  | dispatch =>
    cases hq : s.queue with
    | nil => simpa [applyDispOp, hq] using h
    | cons h0 t =>
      rw [hq] at h
      simpa [applyDispOp, hq] using (List.pairwise_cons.mp h).2
  | settle k rl =>
    cases hk : s.inFlight[k]? with
    | none => simpa [applyDispOp, hk] using h
    | some item =>
      by_cases hc : rl = true ∧ item.retryCount < MAX_RETRIES
      · obtain ⟨hrl, hlt⟩ := hc
        subst hrl
        rw [applyDispOp_settle_requeue s k item hk hlt]
        refine List.pairwise_cons.mpr ⟨?_, h⟩
        intro b hb hzero
        exact absurd hzero (by simp)
      · rw [applyDispOp_settle_drop s k item rl hk hc]
        exact h

/-- Any run of events preserves the head-priority shape. -/
theorem runDispOps_retriedAhead (ops : List DispOp) :
    ∀ s, retriedAhead s.queue → retriedAhead (runDispOps s ops).1.queue := by
  induction ops with
  | nil => intro s h; exact h
  | cons op ops ih =>
    intro s h
    exact ih _ (applyDispOp_retriedAhead s op h)

/-- The first-attempt items still pending in the queue. -/
def freshQueue (q : List QItem) : List QItem :=
  q.filter (fun x => x.retryCount == 0)

/-- The least id the next dispatched first-attempt item can have. -/
def lowerFresh (s : DispState) : Nat :=
  match freshQueue s.queue with
  | [] => s.counter + 1
  | h :: _ => h.id

/-- Appending a fresh submission does not change the least pending
first-attempt id. -/
theorem lowerFresh_append_fresh (s : DispState) :
    lowerFresh
      { s with
          queue := s.queue ++ [⟨s.counter + 1, 0⟩]
          counter := s.counter + 1 } = lowerFresh s := by
  unfold lowerFresh freshQueue
  simp only [List.filter_append]
  cases hfs : s.queue.filter (fun x => x.retryCount == 0) with
  | nil => simp
  | cons h0 t0 => simp

/-- Trace invariant of the asynchronous dispatcher: as long as the call
counter has not wrapped, the pending first-attempt items have strictly
increasing ids bounded by the counter, and therefore the subsequence of
the dispatch trace consisting of first attempts (`retryCount = 0`) is
monotone in submission id. -/
theorem runDispOps_freshTrace (ops : List DispOp) :
    ∀ s : DispState,
      List.Chain' (fun a b => a.id < b.id) (freshQueue s.queue) →
      (∀ x ∈ s.queue, x.retryCount = 0 → x.id ≤ s.counter) →
      s.counter + countDispSubmits ops ≤ maxSafeInteger →
      List.Chain' (fun a b => a.id ≤ b.id)
        ((runDispOps s ops).2.filter (fun e => e.retryCount == 0)) ∧
      (∀ e ∈ (runDispOps s ops).2.filter (fun e => e.retryCount == 0),
        lowerFresh s ≤ e.id) := by
  induction ops with
  | nil =>
    intro s h1 h2 h3
    simp [runDispOps]
  | cons op ops ih =>
    intro s h1 h2 h3
    cases op with
    | submit =>
      rw [countDispSubmits_cons_submit] at h3
      have hc : s.counter < maxSafeInteger := by omega
      have hnc : nextCounter s.counter = s.counter + 1 := by
        simp [nextCounter]
        omega
      have happ : applyDispOp s .submit =
          ({ s with
              queue := s.queue ++ [⟨s.counter + 1, 0⟩]
              counter := s.counter + 1 }, none) := by
        simp [applyDispOp, hnc]
      have hfq : freshQueue (s.queue ++ [⟨s.counter + 1, 0⟩]) =
          freshQueue s.queue ++ [⟨s.counter + 1, 0⟩] := by
        simp [freshQueue, List.filter_append]
      have hchain2 : List.Chain' (fun a b : QItem => a.id < b.id)
          (freshQueue (s.queue ++ [⟨s.counter + 1, 0⟩])) := by
        rw [hfq]
        refine List.Chain'.append h1 (List.chain'_singleton _) ?_
        intro x hx y hy
        simp only [List.head?_cons, Option.mem_def, Option.some.injEq] at hy
        subst hy
        obtain ⟨hne, hxl⟩ := List.mem_getLast?_eq_getLast hx
        have hxmem : x ∈ freshQueue s.queue := hxl ▸ List.getLast_mem hne
        obtain ⟨hxq, hx0⟩ := List.mem_filter.mp hxmem
        have := h2 x hxq (by simpa using hx0)
        show x.id < s.counter + 1
        omega
      have hbound2 : ∀ x ∈ s.queue ++ [(⟨s.counter + 1, 0⟩ : QItem)],
          x.retryCount = 0 → x.id ≤ s.counter + 1 := by
        intro x hx hx0
        rcases List.mem_append.mp hx with hx1 | hx2
        · have := h2 x hx1 hx0
          omega
        · rw [List.mem_singleton] at hx2
          subst hx2
          exact le_refl _
      obtain ⟨htr, hlo⟩ := ih
        { s with
            queue := s.queue ++ [⟨s.counter + 1, 0⟩]
            counter := s.counter + 1 }
        hchain2 hbound2
        (by show s.counter + 1 + countDispSubmits ops ≤ maxSafeInteger; omega)
      rw [show runDispOps s (DispOp.submit :: ops) =
        ((runDispOps (applyDispOp s .submit).1 ops).1,
          (applyDispOp s .submit).2.toList ++
            (runDispOps (applyDispOp s .submit).1 ops).2) from rfl, happ]
      simp only [Option.toList_none, List.nil_append]
      refine ⟨htr, fun e he => ?_⟩
      have hle := hlo e he
      rw [lowerFresh_append_fresh] at hle
      exact hle
    | dispatch =>
      rw [countDispSubmits_cons_dispatch] at h3
      cases hq : s.queue with
      | nil =>
        have happ : applyDispOp s .dispatch = (s, none) := by
          simp [applyDispOp, hq]
        obtain ⟨htr, hlo⟩ := ih s h1 h2 h3
        rw [show runDispOps s (DispOp.dispatch :: ops) =
          ((runDispOps (applyDispOp s .dispatch).1 ops).1,
            (applyDispOp s .dispatch).2.toList ++
              (runDispOps (applyDispOp s .dispatch).1 ops).2) from rfl, happ]
        simp only [Option.toList_none, List.nil_append]
        exact ⟨htr, hlo⟩
      | cons h0 t =>
        have happ : applyDispOp s .dispatch =
            ({ s with queue := t, inFlight := s.inFlight ++ [h0] }, some h0) := by
          simp [applyDispOp, hq]
        rw [show runDispOps s (DispOp.dispatch :: ops) =
          ((runDispOps (applyDispOp s .dispatch).1 ops).1,
            (applyDispOp s .dispatch).2.toList ++
              (runDispOps (applyDispOp s .dispatch).1 ops).2) from rfl, happ]
        simp only [Option.toList_some, List.singleton_append]
        by_cases h00 : h0.retryCount = 0
        · have hfq : freshQueue s.queue = h0 :: freshQueue t := by
            rw [hq]
            simp [freshQueue, List.filter_cons, h00]
          have hchain0 : List.Chain' (fun a b : QItem => a.id < b.id)
              (h0 :: freshQueue t) := hfq ▸ h1
          have hchain' := (List.chain'_cons'.mp hchain0).2
          have hheadlt := (List.chain'_cons'.mp hchain0).1
          have hbound' : ∀ x ∈ t, x.retryCount = 0 → x.id ≤ s.counter := by
            intro x hx hx0
            refine h2 x ?_ hx0
            rw [hq]
            exact List.mem_cons_of_mem _ hx
          obtain ⟨htr, hlo⟩ := ih
            { s with queue := t, inFlight := s.inFlight ++ [h0] }
            hchain' hbound' h3
          have hh0c : h0.id ≤ s.counter := by
            refine h2 h0 ?_ h00
            rw [hq]
            exact List.mem_cons_self _ _
          have hlow : h0.id ≤ lowerFresh
              { s with queue := t, inFlight := s.inFlight ++ [h0] } := by
            have hq2 : freshQueue
                ({ s with queue := t, inFlight := s.inFlight ++ [h0] } :
                  DispState).queue = freshQueue t := rfl
            unfold lowerFresh
            rw [hq2]
            cases hft : freshQueue t with
            | nil =>
              show h0.id ≤ s.counter + 1
              omega
            | cons f ft =>
              have hlt2 : h0.id < f.id := by
                refine hheadlt f ?_
                rw [hft]
                rfl
              show h0.id ≤ f.id
              omega
          have hlfs : lowerFresh s = h0.id := by
            unfold lowerFresh
            rw [hfq]
          have hfilter : (h0 :: (runDispOps
              { s with queue := t, inFlight := s.inFlight ++ [h0] } ops).2).filter
                (fun e => e.retryCount == 0) =
              h0 :: ((runDispOps
                { s with queue := t, inFlight := s.inFlight ++ [h0] } ops).2.filter
                  (fun e => e.retryCount == 0)) := by
            simp [List.filter_cons, h00]
          rw [hfilter]
          constructor
          · refine List.chain'_cons'.mpr ⟨fun y hy => ?_, htr⟩
            have hymem := List.mem_of_mem_head? hy
            have := hlo y hymem
            omega
          · intro e he
            rcases List.mem_cons.mp he with he0 | he1
            · subst he0
              rw [hlfs]
            · have := hlo e he1
              rw [hlfs]
              omega
        · have hfq : freshQueue s.queue = freshQueue t := by
            rw [hq]
            simp [freshQueue, List.filter_cons, h00]
          have hchain' : List.Chain' (fun a b : QItem => a.id < b.id)
              (freshQueue t) := hfq ▸ h1
          have hbound' : ∀ x ∈ t, x.retryCount = 0 → x.id ≤ s.counter := by
            intro x hx hx0
            refine h2 x ?_ hx0
            rw [hq]
            exact List.mem_cons_of_mem _ hx
          obtain ⟨htr, hlo⟩ := ih
            { s with queue := t, inFlight := s.inFlight ++ [h0] }
            hchain' hbound' h3
          have hlfs : lowerFresh s = lowerFresh
              { s with queue := t, inFlight := s.inFlight ++ [h0] } := by
            unfold lowerFresh
            rw [hfq]
          have hfilter : (h0 :: (runDispOps
              { s with queue := t, inFlight := s.inFlight ++ [h0] } ops).2).filter
                (fun e => e.retryCount == 0) =
              (runDispOps
                { s with queue := t, inFlight := s.inFlight ++ [h0] } ops).2.filter
                  (fun e => e.retryCount == 0) := by
            simp [List.filter_cons, h00]
          rw [hfilter]
          refine ⟨htr, fun e he => ?_⟩
          rw [hlfs]
          exact hlo e he
    | settle k rl =>
      rw [countDispSubmits_cons_settle] at h3
      cases hk : s.inFlight[k]? with
      | none =>
        have happ : applyDispOp s (.settle k rl) = (s, none) := by
          simp [applyDispOp, hk]
        obtain ⟨htr, hlo⟩ := ih s h1 h2 h3
        rw [show runDispOps s (DispOp.settle k rl :: ops) =
          ((runDispOps (applyDispOp s (.settle k rl)).1 ops).1,
            (applyDispOp s (.settle k rl)).2.toList ++
              (runDispOps (applyDispOp s (.settle k rl)).1 ops).2) from rfl, happ]
        simp only [Option.toList_none, List.nil_append]
        exact ⟨htr, hlo⟩
      | some item =>
        by_cases hc : rl = true ∧ item.retryCount < MAX_RETRIES
        · obtain ⟨hrl, hlt⟩ := hc
          subst hrl
          have happ := applyDispOp_settle_requeue s k item hk hlt
          have hfq : freshQueue
              ({ item with retryCount := item.retryCount + 1 } :: s.queue) =
              freshQueue s.queue := by
            simp [freshQueue, List.filter_cons]
          have hchain' : List.Chain' (fun a b : QItem => a.id < b.id)
              (freshQueue ({ item with retryCount := item.retryCount + 1 } ::
                s.queue)) := by
            rw [hfq]
            exact h1
          have hbound' : ∀ x ∈ ({ item with retryCount := item.retryCount + 1 } ::
              s.queue), x.retryCount = 0 → x.id ≤ s.counter := by
            intro x hx hx0
            rcases List.mem_cons.mp hx with hx1 | hx2
            · subst hx1
              exact absurd hx0 (by simp)
            · exact h2 x hx2 hx0
          obtain ⟨htr, hlo⟩ := ih
            { s with
                inFlight := s.inFlight.eraseIdx k
                queue := { item with retryCount := item.retryCount + 1 } ::
                  s.queue }
            hchain' hbound' h3
          rw [show runDispOps s (DispOp.settle k true :: ops) =
            ((runDispOps (applyDispOp s (.settle k true)).1 ops).1,
              (applyDispOp s (.settle k true)).2.toList ++
                (runDispOps (applyDispOp s (.settle k true)).1 ops).2)
            from rfl, happ]
          simp only [Option.toList_none, List.nil_append]
          refine ⟨htr, fun e he => ?_⟩
          have := hlo e he
          have hlfs : lowerFresh
              { s with
                  inFlight := s.inFlight.eraseIdx k
                  queue := { item with retryCount := item.retryCount + 1 } ::
                    s.queue } = lowerFresh s := by
            unfold lowerFresh
            rw [hfq]
          rw [hlfs] at this
          exact this
        · have happ := applyDispOp_settle_drop s k item rl hk hc
          obtain ⟨htr, hlo⟩ := ih
            { s with inFlight := s.inFlight.eraseIdx k } h1 h2 h3
          rw [show runDispOps s (DispOp.settle k rl :: ops) =
            ((runDispOps (applyDispOp s (.settle k rl)).1 ops).1,
              (applyDispOp s (.settle k rl)).2.toList ++
                (runDispOps (applyDispOp s (.settle k rl)).1 ops).2)
            from rfl, happ]
          simp only [Option.toList_none, List.nil_append]
          exact ⟨htr, fun e he => hlo e he⟩

/-- C8 counterexample: the drain loop fires `workFn()` without awaiting
it, so with two items submitted together both are dispatched before
either response arrives; if both responses are marked rate-limit
rejections and the second item's response arrives first, the retries are
requeued in response-arrival order and the dispatch trace is
1, 2, 2, 1 — the two retry-count-1 dispatches are out of submission
order, refuting equal-retry-count FIFO as stated. -/
theorem dispatcher_fifo_counterexample :
    (runDispOps ⟨[], [], 0⟩
        [.submit, .submit, .dispatch, .dispatch, .settle 1 true, .dispatch,
         .settle 0 true, .dispatch]).2 =
      [⟨1, 0⟩, ⟨2, 0⟩, ⟨2, 1⟩, ⟨1, 1⟩] ∧
    ¬ List.Pairwise
        (fun a b : QItem => a.retryCount = b.retryCount → a.id ≤ b.id)
        (runDispOps ⟨[], [], 0⟩
          [.submit, .submit, .dispatch, .dispatch, .settle 1 true, .dispatch,
           .settle 0 true, .dispatch]).2 := by
  constructor
  · decide
  · decide

/-- C8 (amended): a submission appends a fresh item with `retryCount = 0`
at the tail; when a marked rate-limit response settles for an in-flight
item below the ceiling, the callback reinserts it at the head of the
queue with `retryCount + 1` and the same id (the same resolve/reject
handles); consequently the queue always keeps retried items ahead of
not-yet-attempted ones — a retried item is dispatched before every
not-yet-attempted item — and first attempts (retry count 0) are
dispatched in submission (FIFO) order while the counter has not wrapped.
Because requests are fired without awaiting, retries with equal retry
count of 1 or more are requeued in response-arrival order, which need not
be submission order (see the counterexample). -/
theorem dispatcher_queue_order_amended (s : DispState) (k : Nat)
    (item : QItem) (ops : List DispOp)
    (hk : s.inFlight[k]? = some item)
    (hlt : item.retryCount < MAX_RETRIES)
    (hops : countDispSubmits ops ≤ maxSafeInteger) :
    (applyDispOp s .submit =
      ({ s with
          queue := s.queue ++ [⟨nextCounter s.counter, 0⟩]
          counter := nextCounter s.counter }, none)) ∧
    (applyDispOp s (.settle k true) =
      ({ s with
          inFlight := s.inFlight.eraseIdx k
          queue := ⟨item.id, item.retryCount + 1⟩ :: s.queue }, none)) ∧
    retriedAhead (runDispOps ⟨[], [], 0⟩ ops).1.queue ∧
    List.Pairwise (fun a b => a.id ≤ b.id)
      ((runDispOps ⟨[], [], 0⟩ ops).2.filter
        (fun e => e.retryCount == 0)) := by
  refine ⟨rfl, applyDispOp_settle_requeue s k item hk hlt, ?_, ?_⟩
  · refine runDispOps_retriedAhead ops ⟨[], [], 0⟩ ?_
    exact List.Pairwise.nil
  · have htr := (runDispOps_freshTrace ops ⟨[], [], 0⟩
      (by simp [freshQueue]) (by simp) (by simpa using hops)).1
    haveI : IsTrans QItem (fun a b => a.id ≤ b.id) :=
      ⟨fun a b c hab hbc => le_trans hab hbc⟩
    exact List.chain'_iff_pairwise.mp htr

/-- Concrete instance of the amended queue-order contract, on the
counterexample schedule itself: one in-flight item retried at the head,
and the first-attempt subsequence of the trace still in FIFO order. -/
theorem dispatcher_queue_order_amended_witness :
    ((⟨[], [⟨1, 0⟩], 1⟩ : DispState).inFlight[0]? = some ⟨1, 0⟩) ∧
    ((⟨1, 0⟩ : QItem).retryCount < MAX_RETRIES) ∧
    (countDispSubmits [DispOp.submit, DispOp.submit, DispOp.dispatch,
      DispOp.dispatch, DispOp.settle 1 true, DispOp.dispatch,
      DispOp.settle 0 true, DispOp.dispatch] ≤ maxSafeInteger) ∧
    ((applyDispOp ⟨[], [⟨1, 0⟩], 1⟩ .submit =
      (⟨[⟨2, 0⟩], [⟨1, 0⟩], 2⟩, none)) ∧
    (applyDispOp ⟨[], [⟨1, 0⟩], 1⟩ (.settle 0 true) =
      (⟨[⟨1, 1⟩], [], 1⟩, none)) ∧
    retriedAhead (runDispOps ⟨[], [], 0⟩
      [DispOp.submit, DispOp.submit, DispOp.dispatch, DispOp.dispatch,
       DispOp.settle 1 true, DispOp.dispatch, DispOp.settle 0 true,
       DispOp.dispatch]).1.queue ∧
    List.Pairwise (fun a b => a.id ≤ b.id)
      ((runDispOps ⟨[], [], 0⟩
        [DispOp.submit, DispOp.submit, DispOp.dispatch, DispOp.dispatch,
         DispOp.settle 1 true, DispOp.dispatch, DispOp.settle 0 true,
         DispOp.dispatch]).2.filter (fun e => e.retryCount == 0))) := by
  refine ⟨rfl, by decide, by decide, ?_⟩
  exact dispatcher_queue_order_amended ⟨[], [⟨1, 0⟩], 1⟩ 0 ⟨1, 0⟩
    [DispOp.submit, DispOp.submit, DispOp.dispatch, DispOp.dispatch,
     DispOp.settle 1 true, DispOp.dispatch, DispOp.settle 0 true,
     DispOp.dispatch] rfl (by decide) (by decide)

/-- Once the shared dispatcher exists, every later construction leaves it
untouched and every non-opted-out instance receives exactly it. -/
theorem constructAll_with_shared (L : SharedLimiter) :
    ∀ (opts : List CtorOptions) (idx : Nat),
      (constructAll (some L) idx opts).1 = some L ∧
      ∀ i oi, opts.get? i = some oi →
        (constructAll (some L) idx opts).2.get? i =
          some (if oi.disableThrottling then .passthrough else .throttled L) := by
  intro opts
  induction opts with
  | nil =>
    intro idx
    refine ⟨rfl, fun i oi h => ?_⟩
    simp at h
  | cons o0 os ih =>
    intro idx
    have hcc : constructClient (some L) idx o0 =
        (some L, if o0.disableThrottling then .passthrough else .throttled L) := by
      by_cases hd : o0.disableThrottling
      · simp [constructClient, hd]
      · simp [constructClient, hd]
    obtain ⟨ih1, ih2⟩ := ih (idx + 1)
    constructor
    · show (constructAll (constructClient (some L) idx o0).1 (idx + 1) os).1 = some L
      rw [hcc]
      exact ih1
    · intro i oi h
      cases i with
      | zero =>
        simp only [List.get?_cons_zero, Option.some.injEq] at h
        subst h
        show ((constructClient (some L) idx o0).2 ::
          (constructAll (constructClient (some L) idx o0).1 (idx + 1) os).2).get? 0 =
          _
        rw [hcc]
        rfl
      | succ i2 =>
        simp only [List.get?_cons_succ] at h
        show ((constructClient (some L) idx o0).2 ::
          (constructAll (constructClient (some L) idx o0).1 (idx + 1) os).2).get?
            (i2 + 1) = _
        rw [hcc]
        simp only [List.get?_cons_succ]
        exact ih2 i2 oi h

/-- From an absent shared dispatcher, the first non-opted-out construction
creates it with its own interval, and every construction receives the
function its options dictate. -/
theorem constructAll_first (opts : List CtorOptions) :
    ∀ (idx j : Nat) (o : CtorOptions), opts.get? j = some o →
      o.disableThrottling = false →
      (∀ k o2, k < j → opts.get? k = some o2 → o2.disableThrottling = true) →
      (constructAll none idx opts).1 =
        some ⟨o.rateLimitIntervalMs.getD 1000, idx + j⟩ ∧
      ∀ i oi, opts.get? i = some oi →
        (constructAll none idx opts).2.get? i =
          some (if oi.disableThrottling then .passthrough
            else .throttled ⟨o.rateLimitIntervalMs.getD 1000, idx + j⟩) := by
  induction opts with
  | nil =>
    intro idx j o hj
    simp at hj
  | cons o0 os ih =>
    intro idx j o hj ho hfirst
    cases j with
    | zero =>
      simp only [List.get?_cons_zero, Option.some.injEq] at hj
      subst hj
      have hcc : constructClient none idx o0 =
          (some ⟨o0.rateLimitIntervalMs.getD 1000, idx⟩,
            .throttled ⟨o0.rateLimitIntervalMs.getD 1000, idx⟩) := by
        simp [constructClient, ho]
      obtain ⟨sh1, sh2⟩ := constructAll_with_shared
        ⟨o0.rateLimitIntervalMs.getD 1000, idx⟩ os (idx + 1)
      constructor
      · show (constructAll (constructClient none idx o0).1 (idx + 1) os).1 = _
        rw [hcc, sh1]
        simp
      · intro i oi h
        cases i with
        | zero =>
          simp only [List.get?_cons_zero, Option.some.injEq] at h
          subst h
          show ((constructClient none idx o0).2 ::
            (constructAll (constructClient none idx o0).1 (idx + 1) os).2).get? 0 = _
          rw [hcc]
          simp [ho]
        | succ i2 =>
          simp only [List.get?_cons_succ] at h
          show ((constructClient none idx o0).2 ::
            (constructAll (constructClient none idx o0).1 (idx + 1) os).2).get?
              (i2 + 1) = _
          rw [hcc]
          simp only [List.get?_cons_succ]
          rw [sh2 i2 oi h]
          simp
    | succ j2 =>
      have hd0 : o0.disableThrottling = true :=
        hfirst 0 o0 (Nat.succ_pos j2) rfl
      have hcc : constructClient none idx o0 = (none, .passthrough) := by
        simp [constructClient, hd0]
      simp only [List.get?_cons_succ] at hj
      have hfirst2 : ∀ k o2, k < j2 → os.get? k = some o2 →
          o2.disableThrottling = true := by
        intro k o2 hk hg
        exact hfirst (k + 1) o2 (by omega) (by simpa using hg)
      obtain ⟨ih1, ih2⟩ := ih (idx + 1) j2 o hj ho hfirst2
      have harith : idx + 1 + j2 = idx + (j2 + 1) := by omega
      constructor
      · show (constructAll (constructClient none idx o0).1 (idx + 1) os).1 = _
        rw [hcc, ih1, harith]
      · intro i oi h
        cases i with
        | zero =>
          simp only [List.get?_cons_zero, Option.some.injEq] at h
          subst h
          show ((constructClient none idx o0).2 ::
            (constructAll (constructClient none idx o0).1 (idx + 1) os).2).get? 0 = _
          rw [hcc]
          simp [hd0]
        | succ i2 =>
          simp only [List.get?_cons_succ] at h
          show ((constructClient none idx o0).2 ::
            (constructAll (constructClient none idx o0).1 (idx + 1) os).2).get?
              (i2 + 1) = _
          rw [hcc]
          simp only [List.get?_cons_succ]
          rw [ih2 i2 oi h, harith]

/-- C10: the shared dispatcher is created exactly once per process, by the
first construction of a client that does not set `disableThrottling`,
configured with that construction's `rateLimitIntervalMs` (default 1000);
every later non-opted-out construction reuses that exact dispatcher, so a
different `rateLimitIntervalMs` passed later is silently ignored, and
opted-out instances get the pass-through request function. -/
theorem sharedDispatcher_singleton (opts : List CtorOptions) (j : Nat)
    (o : CtorOptions) (hj : opts.get? j = some o)
    (ho : o.disableThrottling = false)
    (hfirst : ∀ k o2, k < j → opts.get? k = some o2 →
      o2.disableThrottling = true) :
    (constructAll none 0 opts).1 =
      some ⟨o.rateLimitIntervalMs.getD 1000, j⟩ ∧
    (∀ i oi, opts.get? i = some oi → oi.disableThrottling = false →
      (constructAll none 0 opts).2.get? i =
        some (.throttled ⟨o.rateLimitIntervalMs.getD 1000, j⟩)) ∧
    (∀ i oi, opts.get? i = some oi → oi.disableThrottling = true →
      (constructAll none 0 opts).2.get? i = some .passthrough) := by
  obtain ⟨h1, h2⟩ := constructAll_first opts 0 j o hj ho hfirst
  rw [Nat.zero_add] at h1
  refine ⟨h1, fun i oi hi hd => ?_, fun i oi hi hd => ?_⟩
  · have := h2 i oi hi
    rw [hd] at this
    simpa using this
  · have := h2 i oi hi
    rw [hd] at this
    simpa using this

/-- Concrete instance of the singleton-dispatcher contract: the first
non-opted-out instance (index 1, interval 2000) creates the dispatcher;
instance 2's interval 7 is ignored. -/
theorem sharedDispatcher_singleton_witness :
    (([⟨some 500, true⟩, ⟨some 2000, false⟩, ⟨some 7, false⟩] :
        List CtorOptions).get? 1 = some ⟨some 2000, false⟩) ∧
    ((⟨some 2000, false⟩ : CtorOptions).disableThrottling = false) ∧
    (∀ k o2, k < 1 →
      ([⟨some 500, true⟩, ⟨some 2000, false⟩, ⟨some 7, false⟩] :
        List CtorOptions).get? k = some o2 → o2.disableThrottling = true) ∧
    ((constructAll none 0
        [⟨some 500, true⟩, ⟨some 2000, false⟩, ⟨some 7, false⟩]).1 =
      some ⟨2000, 1⟩ ∧
    (∀ i oi, ([⟨some 500, true⟩, ⟨some 2000, false⟩, ⟨some 7, false⟩] :
        List CtorOptions).get? i = some oi → oi.disableThrottling = false →
      (constructAll none 0
        [⟨some 500, true⟩, ⟨some 2000, false⟩, ⟨some 7, false⟩]).2.get? i =
        some (.throttled ⟨2000, 1⟩)) ∧
    (∀ i oi, ([⟨some 500, true⟩, ⟨some 2000, false⟩, ⟨some 7, false⟩] :
        List CtorOptions).get? i = some oi → oi.disableThrottling = true →
      (constructAll none 0
        [⟨some 500, true⟩, ⟨some 2000, false⟩, ⟨some 7, false⟩]).2.get? i =
        some .passthrough)) := by
  have hfirst : ∀ k o2, k < 1 →
      ([⟨some 500, true⟩, ⟨some 2000, false⟩, ⟨some 7, false⟩] :
        List CtorOptions).get? k = some o2 → o2.disableThrottling = true := by
    intro k o2 hk hg
    have hk0 : k = 0 := by omega
    subst hk0
    cases hg
    rfl
  exact ⟨rfl, rfl, hfirst, sharedDispatcher_singleton
    [⟨some 500, true⟩, ⟨some 2000, false⟩, ⟨some 7, false⟩] 1
    ⟨some 2000, false⟩ rfl rfl hfirst⟩

/-- C5: link-header next-URL extraction: a multi-value header is joined
with a comma before scanning; the entry ending in `rel="next"` supplies the
URL between its angle brackets; headers carrying only other relations
(`prev`, `last`, `blah`) yield nothing, and in general a header none of
whose comma-separated entries carries the `rel="next"` suffix never
advances pagination. -/
theorem getNextUrl_spec :
    getNextUrl (.single "<https://x/p2>; rel=\"next\"") = some "https://x/p2" ∧
    getNextUrl (.single "<https://x/p1>; rel=\"prev\"") = none ∧
    getNextUrl (.single "<https://x/p1>; rel=\"last\"") = none ∧
    getNextUrl (.single "<https://x/p1>; rel=\"blah\"") = none ∧
    getNextUrl
      (.multi ["<https://c/a2>; rel=\"next\"", "<https://c/a1>; rel=\"prev\""]) =
      some "https://c/a2" ∧
    (∀ ls : List String,
      getNextUrl (.multi ls) = getNextUrl (.single (", ".intercalate ls))) ∧
    (∀ s : String,
      (∀ part ∈ splitComma s, strEndsWith part relNextSuffix = false) →
      getNextUrl (.single s) = none) := by
  refine ⟨by decide, by decide, by decide, by decide, by decide,
    fun ls => rfl, fun s h => ?_⟩
  unfold getNextUrl
  have hfind : (splitComma s).find? (fun l => strEndsWith l relNextSuffix) = none := by
    apply List.find?_eq_none.mpr
    intro x hx
    simp [h x hx]
  simp [hfind]
